import Mathlib

/-!
Verification of the module resolution and content-addressed fetch engine
of the `nopher` repository: version classification, URL resolution,
privacy matching, netrc credential parsing, caching, and the NAR tree
hashing byte stream.

Go strings are embedded as `List Char` (each `Char` one rune; the strings
handled by the engine are ASCII, where rune-wise and byte-wise processing
agree).  Go byte slices are embedded as `List Nat`, each element a byte
value.  Effectful code is embedded with explicit state passing: the
filesystem is a record of existing directories and file contents, the
network is an oracle from URL to response, and every HTTP request is
recorded in a request log.
-/

deriving instance DecidableEq for Except

/-- Go strings, one list element per rune. -/
abbrev Str := List Char

/-- The UTF-8 bytes of an ASCII string (`[]byte(s)` in Go). -/
def strBytes (s : Str) : List Nat := s.map Char.toNat

/-- `strings.HasPrefix(s, pfx)`. -/
def goStartsWith (s pfx : Str) : Bool := pfx.isPrefixOf s

/-- `strings.HasSuffix(s, sfx)`. -/
def goEndsWith (s sfx : Str) : Bool := sfx.isSuffixOf s

/-- `strings.CutPrefix(s, pfx)`: the remainder when `pfx` is a prefix of `s`. -/
def cutPre (s pfx : Str) : Option Str :=
  if goStartsWith s pfx then some (s.drop pfx.length) else none

/-- `strings.CutSuffix(s, sfx)`: the initial part when `sfx` is a suffix of `s`. -/
def cutSuf (s sfx : Str) : Option Str :=
  if goEndsWith s sfx then some (s.take (s.length - sfx.length)) else none

/-- `strings.TrimPrefix(s, pfx)`. -/
def trimPre (s pfx : Str) : Str := ((cutPre s pfx).getD s)

/-- `strings.TrimSuffix(s, sfx)`. -/
def trimSuf (s sfx : Str) : Str := ((cutSuf s sfx).getD s)

/-- True on the runes Go's `unicode.IsSpace` accepts (the White_Space set). -/
def isSpaceChar (c : Char) : Bool :=
  let n := c.toNat
  (9 ≤ n && n ≤ 13) || n == 32 || n == 133 || n == 160 || n == 5760 ||
    (8192 ≤ n && n ≤ 8202) || n == 8232 || n == 8233 || n == 8239 ||
    n == 8287 || n == 12288

/-- `strings.TrimSpace(s)`: drop leading and trailing white space. -/
def trimSpace (s : Str) : Str :=
  ((s.dropWhile isSpaceChar).reverse.dropWhile isSpaceChar).reverse

/-- `strings.Cut(s, sep)` for a one-rune separator: the pieces before and
after the first occurrence, or `none` when the separator is absent. -/
def splitFirst (s : Str) (c : Char) : Option (Str × Str) :=
  match s with
  | [] => none
  | a :: rest =>
    if a = c then some ([], rest)
    else (splitFirst rest c).map (fun p => (a :: p.1, p.2))

/-- `strings.Split(s, sep)` for a one-rune separator. -/
def splitAll (s : Str) (c : Char) : List Str :=
  match s with
  | [] => [[]]
  | a :: rest =>
    if a = c then [] :: splitAll rest c
    else
      match splitAll rest c with
      | [] => [[a]]
      | x :: xs => (a :: x) :: xs

/-- `strings.SplitN(s, sep, n)` for a one-rune separator, recursing on `n`. -/
def splitN (c : Char) : Nat → Str → List Str
  | 0, _ => []
  | 1, s => [s]
  | n+2, s =>
    match splitFirst s c with
    | none => [s]
    | some (a, b) => a :: splitN c (n+1) b

/-- `strings.Contains(s, sub)`. -/
def containsSub (s sub : Str) : Bool :=
  (List.range (s.length + 1)).any (fun i => sub.isPrefixOf (s.drop i))

/-- Byte-wise string order, `a < b` on Go strings (rune order and byte order
agree because UTF-8 order equals code-point order). -/
def strLt : Str → Str → Bool
  | [], [] => false
  | [], _ :: _ => true
  | _ :: _, [] => false
  | a :: as_, b :: bs => if a = b then strLt as_ bs else decide (a.toNat < b.toNat)

/-- The last index of rune `c` in `s` (`strings.LastIndex` for a one-rune
needle), `none` standing for Go's `-1`. -/
def lastIdx : Str → Char → Option Nat
  | [], _ => none
  | a :: rest, c =>
    match lastIdx rest c with
    | some i => some (i + 1)
    | none => if a = c then some 0 else none

/-- The base64 standard alphabet (`encoding/base64.StdEncoding`). -/
def b64Alphabet : List Char :=
  "ABCDEFGHIJKLMNOPQRSTUVWXYZabcdefghijklmnopqrstuvwxyz0123456789+/".toList

/-- The alphabet character for a 6-bit group. -/
def b64Char (n : Nat) : Char := b64Alphabet.getD n 'A'

/-- `base64.StdEncoding.EncodeToString`: standard base64 with padding. -/
def base64Encode : List Nat → List Char
  | [] => []
  | [a] => [b64Char (a % 256 / 4), b64Char (a % 4 * 16), '=', '=']
  | [a, b] => [b64Char (a % 256 / 4), b64Char (a % 4 * 16 + b % 256 / 16),
      b64Char (b % 16 * 4), '=']
  | a :: b :: c :: rest =>
    b64Char (a % 256 / 4) :: b64Char (a % 4 * 16 + b % 256 / 16) ::
      b64Char (b % 16 * 4 + c % 256 / 64) :: b64Char (c % 64) ::
      base64Encode rest

/-- The UTF-8 bytes of one rune. -/
def utf8Bytes (c : Char) : List Nat :=
  let n := c.toNat
  if n < 128 then [n]
  else if n < 2048 then [192 + n / 64, 128 + n % 64]
  else if n < 65536 then [224 + n / 4096, 128 + n / 64 % 64, 128 + n % 64]
  else [240 + n / 262144, 128 + n / 4096 % 64, 128 + n / 64 % 64, 128 + n % 64]

/-- Whether `net/url` escapes byte `b` in `url.PathEscape`
(`shouldEscape` with mode `encodePathSegment`). -/
def shouldEscapeSeg (b : Nat) : Bool :=
  if (97 ≤ b && b ≤ 122) || (65 ≤ b && b ≤ 90) || (48 ≤ b && b ≤ 57) then false
  else if b ∈ (['-', '_', '.', '~'].map Char.toNat) then false
  else if b ∈ ("$&+,/:;=?@".toList.map Char.toNat) then
    (b == '/'.toNat || b == ';'.toNat || b == ','.toNat || b == '?'.toNat)
  else true

/-- The upper-case hexadecimal digit for a value below 16. -/
def hexUpper (n : Nat) : Char := "0123456789ABCDEF".toList.getD n '0'

/-- A percent-escaped byte, `%XX` with upper-case hex, as `net/url` emits. -/
def pctEnc (b : Nat) : Str := ['%', hexUpper (b / 16), hexUpper (b % 16)]

/-- `url.PathEscape(s)`: escape every byte of the UTF-8 form that
`shouldEscapeSeg` marks; bytes left unescaped are always ASCII, so mapping
them back to runes is faithful. -/
def pathEscape (s : Str) : Str :=
  s.flatMap (fun c => (utf8Bytes c).flatMap
    (fun b => if shouldEscapeSeg b then pctEnc b else [Char.ofNat b]))

/-!
Section: the fetch engine data model (src/internal/fetch/module.go)
-/

/-- `ModuleInfo.Origin`: provenance metadata from the proxy `.info`
endpoint or `go list`.  Absent string fields are the empty string, as for
Go's zero value. -/
structure Origin where
  VCS : Str
  URL : Str
  Ref : Str
  Hash : Str
  Subdir : Str
deriving DecidableEq, Repr

/-- `ModuleInfo`: metadata about a module version. -/
structure ModuleInfo where
  Version : Str
  Time : Str
  Origin : Option Origin
deriving DecidableEq, Repr

/-- The `Fetcher` configuration record.  The netrc credential set only
feeds the basic-auth header of requests and never changes which URLs are
requested, so it is not part of the control-flow model. -/
structure Fetcher where
  Proxy : Str
  Private : Str
  CacheDir : Str
  Verbose : Bool
deriving DecidableEq, Repr

/-- `FetchResult`: what `Fetch` hands back to the caller. -/
structure FetchResult where
  ModulePath : Str
  Version : Str
  Dir : Str
  Hash : Str
  URL : Str
  Rev : Str
deriving DecidableEq, Repr

/-- `escapePath`: the Go module proxy path encoding — each upper-case
ASCII letter becomes `!` followed by its lower-case form. -/
def escapePath (path : Str) : Str :=
  path.flatMap (fun r =>
    if 'A' ≤ r && r ≤ 'Z' then ['!', Char.ofNat (r.toNat + 32)] else [r])

/-- `escapeVersion`: `url.PathEscape` applied to the version. -/
def escapeVersion (version : Str) : Str := pathEscape version

/-- `extractHost`: the first `/`-separated segment of a module path. -/
def extractHost (modulePath : Str) : Str :=
  match splitFirst modulePath '/' with
  | some (host, _) => host
  | none => modulePath

/-- `matchPattern`: one GOPRIVATE pattern against a module path. -/
def matchPattern (pat modulePath : Str) : Bool :=
  match cutSuf pat ['/', '*'] with
  | some pre => goStartsWith modulePath (pre ++ ['/']) || modulePath == pre
  | none =>
    match cutSuf pat ['*'] with
    | some pre => goStartsWith modulePath pre
    | none => goStartsWith modulePath pat

/-- `isPrivate`: OR of `matchPattern` over the comma-separated pattern
list, trimming each pattern and skipping empty ones. -/
def isPrivate (f : Fetcher) (modulePath : Str) : Bool :=
  if f.Private = [] then false
  else (splitAll f.Private ',').any (fun pat =>
    let pat := trimSpace pat
    if pat = [] then false else matchPattern pat modulePath)

/-- `getModuleInfoManual`: fallback provenance built from the version
string alone.  Pseudo-versions (`v0.0.0-` prefix) yield the commit-hash
suffix after the last hyphen; any other version yields a tag ref. -/
def getModuleInfoManual (modulePath version : Str) : ModuleInfo :=
  let base : ModuleInfo := { Version := version, Time := [], Origin := none }
  if goStartsWith modulePath ("github.com/".toList) then
    let parts := splitN '/' 4 modulePath
    if 3 ≤ parts.length then
      let owner := parts.getD 1 []
      let repoName := parts.getD 2 []
      let o : Origin :=
        { VCS := "git".toList,
          URL := "https://github.com/".toList ++ owner ++ ['/'] ++ repoName,
          Ref := [], Hash := [], Subdir := [] }
      if goStartsWith version ("v0.0.0-".toList) then
        match lastIdx version '-' with
        | some idx =>
          if idx + 1 < version.length then
            { base with Origin := some { o with Hash := version.drop (idx + 1) } }
          else { base with Origin := some o }
        | none => { base with Origin := some o }
      else
        { base with Origin := some { o with Ref := "refs/tags/".toList ++ version } }
    else base
  else base

/-- `getModuleInfoFromGoList`: run `go list -m -json`; the oracle returns
`some` on a successful run with parseable JSON, and any failure falls back
to `getModuleInfoManual` (so the call never fails). -/
def getModuleInfoFromGoList (goList : Str → Str → Option ModuleInfo)
    (modulePath version : Str) : ModuleInfo :=
  match goList modulePath version with
  | some info => info
  | none => getModuleInfoManual modulePath version

/-- One logged HTTP request: a module zip download or a `.info` lookup. -/
inductive Req where
  | download (u : Str)
  | info (u : Str)
deriving DecidableEq, Repr

/-- Whether a logged request is a zip download attempt. -/
def Req.isDL : Req → Bool
  | .download _ => true
  | .info _ => false

/-- The proxy `.info` endpoint URL. -/
def infoURLOf (f : Fetcher) (modulePath version : Str) : Str :=
  f.Proxy ++ ['/'] ++ escapePath modulePath ++ "/@v/".toList ++
    escapeVersion version ++ ".info".toList

/-- `getModuleInfo`: GET the proxy `.info` endpoint; `none` when the proxy
is unconfigured, and every transport/status/decode failure also becomes
`none` (the oracle already collapses those).  Returns the request log. -/
def getModuleInfo (f : Fetcher) (infoNet : Str → Option ModuleInfo)
    (modulePath version : Str) : Option ModuleInfo × List Req :=
  if f.Proxy = [] then (none, [])
  else (infoNet (infoURLOf f modulePath version),
        [.info (infoURLOf f modulePath version)])

/-- `getGitHubModuleInfo`: private modules use `go list` only; public ones
try the proxy `.info` endpoint first and fall back to `go list`. -/
def getGitHubModuleInfo (f : Fetcher) (goList : Str → Str → Option ModuleInfo)
    (infoNet : Str → Option ModuleInfo) (modulePath version : Str) :
    Option ModuleInfo × List Req :=
  if isPrivate f modulePath then
    (some (getModuleInfoFromGoList goList modulePath version), [])
  else
    match getModuleInfo f infoNet modulePath version with
    | (some info, lg) =>
      if info.Origin.isSome then (some info, lg)
      else (some (getModuleInfoFromGoList goList modulePath version), lg)
    | (none, lg) =>
      (some (getModuleInfoFromGoList goList modulePath version), lg)

/-- `buildGitHubArchiveURL`: archive URL from `Origin` metadata — tag ref
first, then branch ref, then commit hash; empty string when none apply. -/
def buildGitHubArchiveURL (o : Origin) : Str :=
  let repoURL := trimSuf (trimPre o.URL ("https://github.com/".toList)) (".git".toList)
  match cutPre o.Ref ("refs/tags/".toList) with
  | some tag =>
    "https://github.com/".toList ++ repoURL ++ "/archive/refs/tags/".toList ++
      pathEscape tag ++ ".zip".toList
  | none =>
    match cutPre o.Ref ("refs/heads/".toList) with
    | some branch =>
      "https://github.com/".toList ++ repoURL ++ "/archive/refs/heads/".toList ++
        pathEscape branch ++ ".zip".toList
    | none =>
      if o.Hash ≠ [] then
        "https://github.com/".toList ++ repoURL ++ "/archive/".toList ++
          o.Hash ++ ".zip".toList
      else []

/-- `buildGenericURL`: host plus escaped full path under `/@v/`. -/
def buildGenericURL (modulePath version : Str) : Str :=
  "https://".toList ++ extractHost modulePath ++ ['/'] ++ escapePath modulePath ++
    "/@v/".toList ++ escapeVersion version ++ ".zip".toList

/-- `buildBSRURL`: Buf Schema Registry URL embedding the full path. -/
def buildBSRURL (modulePath version : Str) : Str :=
  "https://".toList ++ extractHost modulePath ++ "/gen/go/".toList ++
    escapePath modulePath ++ "/@v/".toList ++ escapeVersion version ++ ".zip".toList

/-- `buildGitHubURL`: archive URL from Origin metadata when usable, else
the tag-based owner/repo URL, else the generic URL. -/
def buildGitHubURL (f : Fetcher) (goList : Str → Str → Option ModuleInfo)
    (infoNet : Str → Option ModuleInfo) (modulePath version : Str) :
    Str × List Req :=
  let (oinfo, lg) := getGitHubModuleInfo f goList infoNet modulePath version
  let fromOrigin : Str :=
    match oinfo with
    | some info =>
      match info.Origin with
      | some o =>
        if o.VCS == "git".toList && goStartsWith o.URL ("https://github.com/".toList)
        then buildGitHubArchiveURL o else []
      | none => []
    | none => []
  if fromOrigin ≠ [] then (fromOrigin, lg)
  else
    let parts := splitN '/' 4 modulePath
    if 3 ≤ parts.length then
      ("https://github.com/".toList ++ parts.getD 1 [] ++ ['/'] ++ parts.getD 2 [] ++
        "/archive/refs/tags/".toList ++ version ++ ".zip".toList, lg)
    else (buildGenericURL modulePath version, lg)

/-- `directURL`: route to the GitHub, BSR, or generic URL builder. -/
def directURL (f : Fetcher) (goList : Str → Str → Option ModuleInfo)
    (infoNet : Str → Option ModuleInfo) (modulePath version : Str) :
    Str × List Req :=
  if goStartsWith modulePath ("github.com/".toList) then
    buildGitHubURL f goList infoNet modulePath version
  else if containsSub modulePath ("/gen/go/".toList) then
    (buildBSRURL modulePath version, [])
  else (buildGenericURL modulePath version, [])

/-- `getDownloadURL`: private modules go direct; else the proxy URL when a
proxy is configured; else direct. -/
def getDownloadURL (f : Fetcher) (goList : Str → Str → Option ModuleInfo)
    (infoNet : Str → Option ModuleInfo) (modulePath version : Str) :
    Str × List Req :=
  if isPrivate f modulePath then directURL f goList infoNet modulePath version
  else if f.Proxy ≠ [] then
    (f.Proxy ++ ['/'] ++ escapePath modulePath ++ "/@v/".toList ++
      escapeVersion version ++ ".zip".toList, [])
  else directURL f goList infoNet modulePath version

/-!
Section: filesystem state and the fetch orchestrator
-/

/-- One zip archive entry.  File contents are kept as strings; the raw
archive bytes live in `Zip.bytes`. -/
structure ZipEntry where
  name : Str
  isDir : Bool
  content : Str
deriving DecidableEq, Repr

/-- A downloaded module archive: the raw bytes that are hashed, plus the
entries seen by `archive/zip`. -/
structure Zip where
  bytes : List Nat
  entries : List ZipEntry
deriving DecidableEq, Repr

/-- The filesystem state: the set of existing directories and a map from
file path to contents (later writes shadow earlier ones). -/
structure FS where
  dirs : List Str
  files : List (Str × Str)
deriving DecidableEq, Repr

/-- `os.Stat` followed by `IsDir`: the path is an existing directory. -/
def dirExists (fs : FS) (p : Str) : Bool := fs.dirs.contains p

/-- `os.ReadFile`: the contents at a path, `none` when unreadable. -/
def readFile (fs : FS) (p : Str) : Option Str :=
  (fs.files.find? (fun kv => kv.1 == p)).map (fun kv => kv.2)

/-- `os.WriteFile`: create or overwrite a file. -/
def writeFile (fs : FS) (p v : Str) : FS :=
  { fs with files := (p, v) :: fs.files }

/-- The directory part of a path (`filepath.Dir` for clean paths). -/
def dirOf (p : Str) : Str :=
  match lastIdx p '/' with
  | some i => p.take i
  | none => ['.']

/-- All `/`-boundary ancestors of a path, the path itself included. -/
def ancestorDirs (p : Str) : List Str :=
  let parts := splitAll p '/'
  (List.range parts.length).map (fun i => List.intercalate ['/'] (parts.take (i + 1)))

/-- `os.MkdirAll`: create a directory and all its ancestors. -/
def mkdirAll (fs : FS) (p : Str) : FS :=
  { fs with dirs := ancestorDirs p ++ fs.dirs }

/-- `os.RemoveAll`: drop the directory and everything beneath it. -/
def removeAll (fs : FS) (p : Str) : FS :=
  { dirs := fs.dirs.filter (fun d => !(d == p || goStartsWith d (p ++ ['/']))),
    files := fs.files.filter (fun kv => !goStartsWith kv.1 (p ++ ['/'])) }

/-- The name an extracted entry lands under: strip the conventional
`modulePath@version/` root when present, else the first path segment. -/
def stripName (pfx name : Str) : Str :=
  match cutPre name pfx with
  | some after => after
  | none =>
    match splitFirst name '/' with
    | some (_, after) => after
    | none => name

/-- Extract one zip entry into the target directory. -/
def extractEntry (targetDir pfx : Str) (fs : FS) (e : ZipEntry) : FS :=
  let name := stripName pfx e.name
  if name = [] then fs
  else
    let targetPath := targetDir ++ ['/'] ++ name
    if e.isDir then mkdirAll fs targetPath
    else writeFile (mkdirAll fs (dirOf targetPath)) targetPath e.content

/-- `extract`: wipe the target directory, then unpack every entry with the
`modulePath@version/` root (or first segment) stripped. -/
def extract (fs : FS) (z : Zip) (targetDir modulePath version : Str) : FS :=
  z.entries.foldl (extractEntry targetDir (modulePath ++ ['@'] ++ version ++ ['/']))
    (removeAll fs targetDir)

/-- The cache key `escapePath(modulePath) + "@" + version`. -/
def cacheKeyOf (modulePath version : Str) : Str :=
  escapePath modulePath ++ ['@'] ++ version

/-- The cache entry directory `filepath.Join(CacheDir, cacheKey)`. -/
def cachedDirPath (f : Fetcher) (modulePath version : Str) : Str :=
  f.CacheDir ++ ['/'] ++ cacheKeyOf modulePath version

/-- The hash sidecar path. -/
def hashFilePath (f : Fetcher) (modulePath version : Str) : Str :=
  cachedDirPath f modulePath version ++ ".hash".toList

/-- The URL sidecar path. -/
def urlFilePath (f : Fetcher) (modulePath version : Str) : Str :=
  cachedDirPath f modulePath version ++ ".url".toList

/-- The revision sidecar path. -/
def revFilePath (f : Fetcher) (modulePath version : Str) : Str :=
  cachedDirPath f modulePath version ++ ".rev".toList

/-- `computeZipHash` on downloaded bytes: the SRI string
`"sha256-" + base64(digest)`, with the SHA-256 compression abstracted as
the `digest` oracle. -/
def zipHashOf (digest : List Nat → List Nat) (bytes : List Nat) : Str :=
  "sha256-".toList ++ base64Encode (digest bytes)

/-- The git-revision lookup of `Fetch` for `github.com/` modules: private
modules use `go list`; public ones try the proxy `.info` endpoint and fall
back to `go list`.  Returns the revision (empty when no Origin) and the
request log. -/
def fetchGitRev (f : Fetcher) (goList : Str → Str → Option ModuleInfo)
    (infoNet : Str → Option ModuleInfo) (modulePath version : Str) :
    Str × List Req :=
  if isPrivate f modulePath then
    let info := getModuleInfoFromGoList goList modulePath version
    ((match info.Origin with | some o => o.Hash | none => []), [])
  else
    match getModuleInfo f infoNet modulePath version with
    | (some info, lg) =>
      ((match info.Origin with | some o => o.Hash | none => []), lg)
    | (none, lg) =>
      let info := getModuleInfoFromGoList goList modulePath version
      ((match info.Origin with | some o => o.Hash | none => []), lg)

/-- The three best-effort sidecar writes of the cache-miss path, in the
order the code issues them: hash, URL, and — when a revision was found —
the revision.  `wOk` says which `os.WriteFile` calls succeed — sidecar
failures are logged warnings, never errors. -/
def sidecarWrites (wOk : Str → Bool) (fs : FS)
    (hashFile urlFile revFile zipHash downloadURL gitRev : Str) : FS :=
  let fs2 := if wOk hashFile then writeFile fs hashFile zipHash else fs
  let fs3 := if wOk urlFile then writeFile fs2 urlFile downloadURL else fs2
  if gitRev ≠ [] && wOk revFile then writeFile fs3 revFile gitRev else fs3

/-- The cache-miss path of `Fetch`: compute the download URL, issue the
single GET (`downloadFromURL`; basic-auth injection does not change the
attempted URL), and on success hash, extract, and write the sidecars.
The revision lookup is computed before the grouped sidecar writes; the
code interleaves it between the URL and revision writes, which touches the
same files in the same order. -/
def fetchMiss (f : Fetcher) (digest : List Nat → List Nat) (wOk : Str → Bool)
    (net : Str → Except Str Zip) (goList : Str → Str → Option ModuleInfo)
    (infoNet : Str → Option ModuleInfo) (fs : FS) (modulePath version : Str) :
    Except Str FetchResult × FS × List Req :=
  let cachedDir := cachedDirPath f modulePath version
  let (downloadURL, lg0) := getDownloadURL f goList infoNet modulePath version
  match net downloadURL with
  | .error e =>
    (.error ("downloading module: ".toList ++ e), fs, lg0 ++ [.download downloadURL])
  | .ok z =>
    let zipHash := zipHashOf digest z.bytes
    let fs1 := extract fs z cachedDir modulePath version
    let (gitRev, lg1) :=
      if goStartsWith modulePath ("github.com/".toList) then
        fetchGitRev f goList infoNet modulePath version
      else ([], [])
    let fs4 := sidecarWrites wOk fs1 (hashFilePath f modulePath version)
      (urlFilePath f modulePath version) (revFilePath f modulePath version)
      zipHash downloadURL gitRev
    (.ok { ModulePath := modulePath, Version := version, Dir := cachedDir,
           Hash := zipHash, URL := downloadURL, Rev := gitRev },
     fs4, lg0 ++ [.download downloadURL] ++ lg1)

/-- `Fetch`: return the cached result when the cache directory exists and
the hash sidecar is readable (URL and revision sidecars are best effort,
defaulting to empty); otherwise run the cache-miss path. -/
def fetch (f : Fetcher) (digest : List Nat → List Nat) (wOk : Str → Bool)
    (net : Str → Except Str Zip) (goList : Str → Str → Option ModuleInfo)
    (infoNet : Str → Option ModuleInfo) (fs : FS) (modulePath version : Str) :
    Except Str FetchResult × FS × List Req :=
  let cachedDir := cachedDirPath f modulePath version
  if dirExists fs cachedDir then
    match readFile fs (hashFilePath f modulePath version) with
    | some hashData =>
      (.ok { ModulePath := modulePath, Version := version, Dir := cachedDir,
             Hash := trimSpace hashData,
             URL := (match readFile fs (urlFilePath f modulePath version) with
                     | some u => trimSpace u
                     | none => []),
             Rev := (match readFile fs (revFilePath f modulePath version) with
                     | some r => trimSpace r
                     | none => []) },
       fs, [])
    | none => fetchMiss f digest wOk net goList infoNet fs modulePath version
  else fetchMiss f digest wOk net goList infoNet fs modulePath version

/-!
Section: netrc credential store (src/unnamed/part_004)
-/

/-- One machine entry of a netrc file; the default entry has an empty
`Machine`. -/
structure NetrcEntry where
  Machine : Str
  Login : Str
  Password : Str
deriving DecidableEq, Repr

/-- A parsed netrc credential set. -/
structure Netrc where
  Entries : List NetrcEntry
deriving DecidableEq, Repr

/-- `tokenize`: split a netrc line on blanks and tabs, with double quotes
toggling a no-split region (the quotes themselves are dropped). -/
def tokenizeGo : Str → Bool → Str → List Str → List Str
  | [], _, cur, toks => if cur ≠ [] then toks ++ [cur] else toks
  | r :: rest, inQuote, cur, toks =>
    if r = Char.ofNat 34 then tokenizeGo rest (!inQuote) cur toks
    else if r = ' ' || r = Char.ofNat 9 then
      if inQuote then tokenizeGo rest inQuote (cur ++ [r]) toks
      else if cur ≠ [] then tokenizeGo rest inQuote [] (toks ++ [cur])
      else tokenizeGo rest inQuote [] toks
    else tokenizeGo rest inQuote (cur ++ [r]) toks

/-- `tokenize` entry point. -/
def tokenize (line : Str) : List Str := tokenizeGo line false [] []

/-- Append the in-progress entry to the list, as the parser does before
starting a new entry and at end of input. -/
def flushEntry (es : List NetrcEntry) : Option NetrcEntry → List NetrcEntry
  | some c => es ++ [c]
  | none => es

/-- The token loop of `ParseNetrcFile` over one line.  A keyword's value
is consumed only under the same guards as the Go code (so a value after
`login` with no open entry is itself re-read as a token).  The `Bool`
result is true when a `macdef` token stopped all parsing: the Go code then
returns the accumulated entries at once, without flushing the open one. -/
def procTokens : List Str → List NetrcEntry → Option NetrcEntry →
    List NetrcEntry × Option NetrcEntry × Bool
  | [], es, cur => (es, cur, false)
  | [t], es, cur =>
    if t = "machine".toList then
      (flushEntry es cur, some { Machine := [], Login := [], Password := [] }, false)
    else if t = "default".toList then
      (flushEntry es cur, some { Machine := [], Login := [], Password := [] }, false)
    else if t = "macdef".toList then (es, cur, true)
    else (es, cur, false)
  | t :: v :: rest, es, cur =>
    if t = "machine".toList then
      procTokens rest (flushEntry es cur) (some { Machine := v, Login := [], Password := [] })
    else if t = "default".toList then
      procTokens (v :: rest) (flushEntry es cur)
        (some { Machine := [], Login := [], Password := [] })
    else if t = "login".toList then
      match cur with
      | some c => procTokens rest es (some { c with Login := v })
      | none => procTokens (v :: rest) es cur
    else if t = "password".toList then
      match cur with
      | some c => procTokens rest es (some { c with Password := v })
      | none => procTokens (v :: rest) es cur
    else if t = "account".toList then procTokens rest es cur
    else if t = "macdef".toList then (es, cur, true)
    else procTokens (v :: rest) es cur

/-- The line loop of `ParseNetrcFile`: trim each line, skip blank and `#`
comment lines, and stop the whole parse at a `macdef` token. -/
def parseLines : List Str → List NetrcEntry → Option NetrcEntry → Netrc
  | [], es, cur => ⟨flushEntry es cur⟩
  | line :: rest, es, cur =>
    let line := trimSpace line
    if line = [] || goStartsWith line ['#'] then parseLines rest es cur
    else
      match procTokens (tokenize line) es cur with
      | (es2, _, true) => ⟨es2⟩
      | (es2, cur2, false) => parseLines rest es2 cur2

/-- `ParseNetrcFile` on the file's lines (the open/scan IO boundary is
outside the model; a missing file is the empty line list). -/
def parseNetrcLines (lines : List Str) : Netrc := parseLines lines [] none

/-- `FindEntry`: first exact machine match, else the first default entry,
else no credentials. -/
def findEntry (n : Netrc) (machine : Str) : Option NetrcEntry :=
  match n.Entries.find? (fun e => e.Machine == machine) with
  | some e => some e
  | none => n.Entries.find? (fun e => e.Machine == [])

/-!
Section: NAR tree hashing (src/internal/hash/nar.go)
-/

/-- A directory tree as seen by `writeNAREntry`: regular files with an
executable bit, directories with named children, and symlinks. -/
inductive FSTree where
  | regular (executable : Bool) (contents : List Nat)
  | directory (children : List (Str × FSTree))
  | symlink (target : Str)
deriving Repr

/-- The 8-byte little-endian length field of `writeBytes`. -/
def lenBytes (n : Nat) : List Nat :=
  [n % 256, n / 2^8 % 256, n / 2^16 % 256, n / 2^24 % 256,
   n / 2^32 % 256, n / 2^40 % 256, n / 2^48 % 256, n / 2^56 % 256]

/-- The zero padding of `writeBytes` to the next 8-byte boundary. -/
def padTo8 (n : Nat) : List Nat := List.replicate ((8 - n % 8) % 8) 0

/-- `writeBytes`: 8-byte length, the data, zero padding to 8 bytes. -/
def narBytesField (data : List Nat) : List Nat :=
  lenBytes data.length ++ data ++ padTo8 data.length

/-- `writeString`: `writeBytes` on the string's bytes. -/
def narStringField (s : Str) : List Nat := narBytesField (strBytes s)

mutual

/-- `writeNAREntry`: the byte stream of one tree node.  Directory children
are emitted in byte-wise sorted-by-name order (`sort.Slice` on `Name()`);
encoding each child first and then sorting the (name, bytes) pairs agrees
with the code's sort-then-encode since the emitted bytes of a child depend
only on its own name and subtree. -/
def narEntry : FSTree → List Nat
  | .regular exec contents =>
    narStringField "(".toList ++ narStringField "type".toList ++
      narStringField "regular".toList ++
      (if exec then narStringField "executable".toList ++ narStringField [] else []) ++
      narStringField "contents".toList ++ narBytesField contents ++
      narStringField ")".toList
  | .directory children =>
    let encoded := narChildren children
    let sorted := encoded.mergeSort (fun x y => !strLt y.1 x.1)
    narStringField "(".toList ++ narStringField "type".toList ++
      narStringField "directory".toList ++
      sorted.flatMap (fun c =>
        narStringField "entry".toList ++ narStringField "(".toList ++
          narStringField "name".toList ++ narStringField c.1 ++
          narStringField "node".toList ++ c.2 ++ narStringField ")".toList) ++
      narStringField ")".toList
  | .symlink target =>
    narStringField "(".toList ++ narStringField "type".toList ++
      narStringField "symlink".toList ++ narStringField "target".toList ++
      narStringField target ++ narStringField ")".toList

/-- The encodings of a directory's children, in filesystem order. -/
def narChildren : List (Str × FSTree) → List (Str × List Nat)
  | [] => []
  | c :: rest => (c.1, narEntry c.2) :: narChildren rest

end

/-- `writeNAR`: the full stream — the raw bytes of the format marker
`"nix-archive-1"` (written with a plain `w.Write`, not length-prefixed),
then an encoded empty string, then the root entry. -/
def narStream (t : FSTree) : List Nat :=
  strBytes ("nix-archive-1".toList) ++ narStringField [] ++ narEntry t

/-!
Section: supporting lemmas
-/

/-- Reading back a just-written file yields the written contents. -/
theorem readFile_writeFile_self (fs : FS) (p v : Str) :
    readFile (writeFile fs p v) p = some v := by
  simp [readFile, writeFile]

/-- Writing one file does not disturb reads of another. -/
theorem readFile_writeFile_of_ne (fs : FS) (p q v : Str) (h : q ≠ p) :
    readFile (writeFile fs p v) q = readFile fs q := by
  simp [readFile, writeFile, List.find?_cons, h.symm]

/-- Appending different suffixes to the same string gives different strings. -/
theorem append_ne_append_of_ne (p a b : Str) (h : a ≠ b) : p ++ a ≠ p ++ b := by
  intro hcontra
  exact h (List.append_cancel_left hcontra)

/-- The hash and URL sidecar paths differ. -/
theorem hashFile_ne_urlFile (f : Fetcher) (m v : Str) :
    hashFilePath f m v ≠ urlFilePath f m v :=
  append_ne_append_of_ne _ _ _ (by decide)

/-- The hash and revision sidecar paths differ. -/
theorem hashFile_ne_revFile (f : Fetcher) (m v : Str) :
    hashFilePath f m v ≠ revFilePath f m v :=
  append_ne_append_of_ne _ _ _ (by decide)

/-- `dropWhile` is the identity when no element satisfies the predicate. -/
theorem dropWhile_eq_self_of_none (p : Char → Bool) (s : Str)
    (h : ∀ c ∈ s, p c = false) : s.dropWhile p = s := by
  cases s with
  | nil => rfl
  | cons a t => simp [List.dropWhile_cons, h a (List.mem_cons_self a t)]

/-- `trimSpace` is the identity on strings with no white-space runes. -/
theorem trimSpace_eq_self_of_nospace (s : Str)
    (h : ∀ c ∈ s, isSpaceChar c = false) : trimSpace s = s := by
  unfold trimSpace
  rw [dropWhile_eq_self_of_none _ _ h]
  rw [dropWhile_eq_self_of_none _ s.reverse (fun c hc => h c (List.mem_reverse.mp hc))]
  exact List.reverse_reverse s

/-- Every 6-bit group maps into the base64 alphabet. -/
theorem b64Char_mem (n : Nat) : b64Char n ∈ b64Alphabet := by
  unfold b64Char
  by_cases h : n < b64Alphabet.length
  · rw [List.getD_eq_getElem _ _ h]
    exact List.getElem_mem h
  · rw [List.getD_eq_default _ _ (Nat.le_of_not_lt h)]
    decide

/-- Every character emitted by base64 encoding is an alphabet character or
the padding character. -/
theorem base64Encode_chars (bs : List Nat) :
    ∀ c ∈ base64Encode bs, c ∈ b64Alphabet ∨ c = '=' := by
  induction bs using base64Encode.induct with
  | case1 => intro c hc; simp [base64Encode] at hc
  | case2 a =>
    intro c hc
    simp only [base64Encode, List.mem_cons, List.not_mem_nil, or_false] at hc
    rcases hc with h | h | h | h
    all_goals first
      | (subst h; exact Or.inl (b64Char_mem _))
      | (subst h; exact Or.inr rfl)
  | case3 a b =>
    intro c hc
    simp only [base64Encode, List.mem_cons, List.not_mem_nil, or_false] at hc
    rcases hc with h | h | h | h
    all_goals first
      | (subst h; exact Or.inl (b64Char_mem _))
      | (subst h; exact Or.inr rfl)
  | case4 a b c2 rest ih =>
    intro c hc
    simp only [base64Encode, List.mem_cons] at hc
    rcases hc with h | h | h | h | h
    · subst h; exact Or.inl (b64Char_mem _)
    · subst h; exact Or.inl (b64Char_mem _)
    · subst h; exact Or.inl (b64Char_mem _)
    · subst h; exact Or.inl (b64Char_mem _)
    · exact ih c h

/-- No base64 alphabet character is white space. -/
theorem b64Alphabet_nospace : ∀ c ∈ b64Alphabet, isSpaceChar c = false := by
  decide

/-- An SRI hash string has no leading or trailing white space, so the
cache round trip through `strings.TrimSpace` preserves it. -/
theorem trimSpace_zipHash (digest : List Nat → List Nat) (bytes : List Nat) :
    trimSpace (zipHashOf digest bytes) = zipHashOf digest bytes := by
  apply trimSpace_eq_self_of_nospace
  intro c hc
  unfold zipHashOf at hc
  rcases List.mem_append.mp hc with h | h
  · have hall : ∀ x ∈ "sha256-".toList, isSpaceChar x = false := by decide
    exact hall c h
  · rcases base64Encode_chars _ c h with h2 | h2
    · exact b64Alphabet_nospace c h2
    · subst h2; decide

/-- Reading the hash sidecar after the grouped sidecar writes returns the
hash that was written, whenever the hash write succeeded. -/
theorem readFile_sidecarWrites_hash (wOk : Str → Bool) (fs : FS)
    (f : Fetcher) (m v : Str) (zipHash downloadURL gitRev : Str)
    (h3 : wOk (hashFilePath f m v) = true) :
    readFile (sidecarWrites wOk fs (hashFilePath f m v) (urlFilePath f m v)
      (revFilePath f m v) zipHash downloadURL gitRev) (hashFilePath f m v) =
      some zipHash := by
  unfold sidecarWrites
  simp only [h3, if_true]
  split <;> split <;>
    simp only [readFile_writeFile_of_ne _ _ _ _ (hashFile_ne_revFile f m v),
      readFile_writeFile_of_ne _ _ _ _ (hashFile_ne_urlFile f m v),
      readFile_writeFile_self]

/-- The `.info` metadata lookup logs only `.info` requests. -/
theorem getModuleInfo_log (f : Fetcher) (inet : Str → Option ModuleInfo)
    (m v : Str) : ∀ r ∈ (getModuleInfo f inet m v).2, r.isDL = false := by
  unfold getModuleInfo
  split
  · simp
  · intro r hr
    simp only [List.mem_singleton] at hr
    subst hr
    rfl

/-- The GitHub metadata resolution logs only `.info` requests. -/
theorem getGitHubModuleInfo_log (f : Fetcher) (gl : Str → Str → Option ModuleInfo)
    (inet : Str → Option ModuleInfo) (m v : Str) :
    ∀ r ∈ (getGitHubModuleInfo f gl inet m v).2, r.isDL = false := by
  unfold getGitHubModuleInfo
  split
  · simp
  · rcases hgm : getModuleInfo f inet m v with ⟨oinfo, lg⟩
    have hbase := getModuleInfo_log f inet m v
    rw [hgm] at hbase
    cases oinfo with
    | none => simpa using hbase
    | some info =>
      by_cases ho : info.Origin.isSome <;> simp [ho] <;> simpa using hbase

/-- The GitHub URL builder logs only `.info` requests. -/
theorem buildGitHubURL_log (f : Fetcher) (gl : Str → Str → Option ModuleInfo)
    (inet : Str → Option ModuleInfo) (m v : Str) :
    ∀ r ∈ (buildGitHubURL f gl inet m v).2, r.isDL = false := by
  unfold buildGitHubURL
  rcases hgm : getGitHubModuleInfo f gl inet m v with ⟨oinfo, lg⟩
  have hbase := getGitHubModuleInfo_log f gl inet m v
  rw [hgm] at hbase
  simp only at hbase ⊢
  split <;> first | simpa using hbase | (split <;> simpa using hbase)

/-- The direct-URL builder logs only `.info` requests. -/
theorem directURL_log (f : Fetcher) (gl : Str → Str → Option ModuleInfo)
    (inet : Str → Option ModuleInfo) (m v : Str) :
    ∀ r ∈ (directURL f gl inet m v).2, r.isDL = false := by
  unfold directURL
  split
  · exact buildGitHubURL_log f gl inet m v
  · split <;> simp

/-- The download-URL computation logs only `.info` requests — its log
contains no zip download. -/
theorem getDownloadURL_log (f : Fetcher) (gl : Str → Str → Option ModuleInfo)
    (inet : Str → Option ModuleInfo) (m v : Str) :
    ∀ r ∈ (getDownloadURL f gl inet m v).2, r.isDL = false := by
  unfold getDownloadURL
  split
  · exact directURL_log f gl inet m v
  · split
    · simp
    · exact directURL_log f gl inet m v

/-- `lastIdx` finds an index whenever the rune occurs. -/
theorem lastIdx_isSome_of_mem (s : Str) (c : Char) (h : c ∈ s) :
    (lastIdx s c).isSome := by
  induction s with
  | nil => cases h
  | cons a rest ih =>
    unfold lastIdx
    rcases List.mem_cons.mp h with h1 | h1
    · cases hrec : lastIdx rest c with
      | some i => simp
      | none => simp [h1.symm]
    · have := ih h1
      cases hrec : lastIdx rest c with
      | some i => simp
      | none => rw [hrec] at this; cases this

/-- A found last index is inside the string. -/
theorem lastIdx_lt_length (s : Str) (c : Char) (i : Nat)
    (h : lastIdx s c = some i) : i < s.length := by
  induction s generalizing i with
  | nil => cases h
  | cons a rest ih =>
    unfold lastIdx at h
    cases hrec : lastIdx rest c with
    | some j =>
      rw [hrec] at h
      simp only [Option.some.injEq] at h
      subst h
      exact Nat.succ_lt_succ (ih j hrec)
    | none =>
      rw [hrec] at h
      by_cases ha : a = c
      · simp [ha] at h
        subst h
        simp
      · simp [ha] at h

/-- On a successful cache miss, the hash sidecar holds exactly the SRI
hash returned to the caller (given the hash sidecar write succeeded), and
that hash is a `trimSpace` fixed point. -/
theorem fetchMiss_hash_sidecar (f : Fetcher) (digest : List Nat → List Nat)
    (wOk : Str → Bool) (net : Str → Except Str Zip)
    (gl : Str → Str → Option ModuleInfo) (inet : Str → Option ModuleInfo)
    (fs : FS) (m v : Str) (r : FetchResult) (fs1 : FS) (lg : List Req)
    (h1 : fetchMiss f digest wOk net gl inet fs m v = (.ok r, fs1, lg))
    (h3 : wOk (hashFilePath f m v) = true) :
    readFile fs1 (hashFilePath f m v) = some r.Hash ∧
      trimSpace r.Hash = r.Hash := by
  unfold fetchMiss at h1
  rcases hdl : getDownloadURL f gl inet m v with ⟨u, lg0⟩
  rw [hdl] at h1
  simp only [] at h1
  cases hn : net u with
  | error e =>
    rw [hn] at h1
    simp at h1
  | ok z =>
    rw [hn] at h1
    rcases hgr : (if goStartsWith m ("github.com/".toList) then
        fetchGitRev f gl inet m v else ([], [])) with ⟨gitRev, lg1⟩
    rw [hgr] at h1
    simp only [Prod.mk.injEq, Except.ok.injEq] at h1
    obtain ⟨hr, hfs, hlg⟩ := h1
    subst hr
    subst hfs
    refine ⟨?_, ?_⟩
    · simpa using readFile_sidecarWrites_hash wOk _ f m v
        (zipHashOf digest z.bytes) u gitRev h3
    · simpa using trimSpace_zipHash digest z.bytes

/-- After any successful fetch, the hash sidecar in the resulting
filesystem trims to the returned hash — on a hit because the result is the
trimmed sidecar, on a miss because the sidecar was just written. -/
theorem fetch_hash_sidecar (f : Fetcher) (digest : List Nat → List Nat)
    (wOk : Str → Bool) (net : Str → Except Str Zip)
    (gl : Str → Str → Option ModuleInfo) (inet : Str → Option ModuleInfo)
    (fs : FS) (m v : Str) (r : FetchResult) (fs1 : FS) (lg : List Req)
    (h1 : fetch f digest wOk net gl inet fs m v = (.ok r, fs1, lg))
    (h3 : wOk (hashFilePath f m v) = true) :
    ∃ h0, readFile fs1 (hashFilePath f m v) = some h0 ∧ trimSpace h0 = r.Hash := by
  unfold fetch at h1
  simp only [] at h1
  by_cases hd : dirExists fs (cachedDirPath f m v) = true
  · rw [if_pos hd] at h1
    rcases hrd : readFile fs (hashFilePath f m v) with _ | h0
    · rw [hrd] at h1
      simp only [] at h1
      obtain ⟨hread, htrim⟩ := fetchMiss_hash_sidecar f digest wOk net gl inet
        fs m v r fs1 lg h1 h3
      exact ⟨r.Hash, hread, htrim⟩
    · rw [hrd] at h1
      simp only [Prod.mk.injEq, Except.ok.injEq] at h1
      obtain ⟨hr, hfs, hlg⟩ := h1
      subst hfs
      refine ⟨h0, hrd, ?_⟩
      rw [← hr]
  · rw [if_neg hd] at h1
    obtain ⟨hread, htrim⟩ := fetchMiss_hash_sidecar f digest wOk net gl inet
      fs m v r fs1 lg h1 h3
    exact ⟨r.Hash, hread, htrim⟩

/-- The cache-hit branch of `fetch` spelled out: with the cache directory
present and the hash sidecar readable, the cached result is returned at
once, the filesystem is untouched, and no request is issued. -/
theorem fetch_hit_result (f : Fetcher) (digest : List Nat → List Nat)
    (wOk : Str → Bool) (net : Str → Except Str Zip)
    (gl : Str → Str → Option ModuleInfo) (inet : Str → Option ModuleInfo)
    (fs : FS) (m v h0 : Str)
    (hd : dirExists fs (cachedDirPath f m v) = true)
    (hh : readFile fs (hashFilePath f m v) = some h0) :
    fetch f digest wOk net gl inet fs m v =
      (.ok { ModulePath := m, Version := v, Dir := cachedDirPath f m v,
             Hash := trimSpace h0,
             URL := (match readFile fs (urlFilePath f m v) with
                     | some u => trimSpace u
                     | none => []),
             Rev := (match readFile fs (revFilePath f m v) with
                     | some r2 => trimSpace r2
                     | none => []) },
       fs, []) := by
  unfold fetch
  simp only []
  rw [if_pos hd, hh]

/-- C5: after one successful fetch of `(path, version)` whose hash sidecar
write succeeded and whose cache directory exists, a second fetch of the
same `(path, version)` — under any network, `go list`, and `.info` oracle
whatsoever — returns a result with the identical archive hash, leaves the
filesystem unchanged, and issues no request at all (empty request log):
the cached result is returned immediately. -/
theorem fetch_cache_roundtrip (f : Fetcher) (digest : List Nat → List Nat)
    (wOk : Str → Bool) (net net2 : Str → Except Str Zip)
    (gl gl2 : Str → Str → Option ModuleInfo)
    (inet inet2 : Str → Option ModuleInfo) (fs : FS) (m v : Str)
    (r : FetchResult) (fs1 : FS) (lg : List Req)
    (h1 : fetch f digest wOk net gl inet fs m v = (.ok r, fs1, lg))
    (h2 : dirExists fs1 (cachedDirPath f m v) = true)
    (h3 : wOk (hashFilePath f m v) = true) :
    ∃ r2, fetch f digest wOk net2 gl2 inet2 fs1 m v = (.ok r2, fs1, []) ∧
      r2.Hash = r.Hash := by
  obtain ⟨h0, hread, htrim⟩ := fetch_hash_sidecar f digest wOk net gl inet
    fs m v r fs1 lg h1 h3
  exact ⟨_, fetch_hit_result f digest wOk net2 gl2 inet2 fs1 m v h0 h2 hread, htrim⟩

/-- The concrete fetcher of the cache round-trip witness: no proxy, no
private patterns, cache root `cache`. -/
def c5Fetcher : Fetcher := ⟨[], [], "cache".toList, false⟩

/-- The concrete archive of the cache round-trip witness. -/
def c5Zip : Zip :=
  ⟨[1, 2, 3], [⟨"x.io/a@v1/go.mod".toList, false, "hi".toList⟩]⟩

/-- The first-fetch network of the witness: serves the generic direct URL. -/
def c5Net : Str → Except Str Zip := fun u =>
  if u = "https://x.io/x.io/a/@v/v1.zip".toList then .ok c5Zip
  else .error "unexpected status: 404 Not Found".toList

/-- The second-fetch network of the witness: every request fails, so any
issued request would be visible. -/
def c5NetDown : Str → Except Str Zip := fun _ =>
  .error "unexpected status: 502 Bad Gateway".toList

/-- The filesystem state after the witness's first fetch. -/
def c5FS1 : FS :=
  { dirs := ["cache".toList, "cache/x.io".toList, "cache/x.io/a@v1".toList],
    files := [("cache/x.io/a@v1.url".toList, "https://x.io/x.io/a/@v/v1.zip".toList),
              ("cache/x.io/a@v1.hash".toList, "sha256-AQID".toList),
              ("cache/x.io/a@v1/go.mod".toList, "hi".toList)] }

/-- The result of the witness's first fetch. -/
def c5Result : FetchResult :=
  { ModulePath := "x.io/a".toList, Version := "v1".toList,
    Dir := "cache/x.io/a@v1".toList, Hash := "sha256-AQID".toList,
    URL := "https://x.io/x.io/a/@v/v1.zip".toList, Rev := [] }

/-- Witness for C5 at a concrete fetch: one successful fetch followed by a
second fetch against a dead network still yields the same hash with no
request issued. -/
theorem fetch_cache_roundtrip_witness :
    ∃ r2, fetch c5Fetcher (fun b => b) (fun _ => true) c5NetDown
        (fun _ _ => none) (fun _ => none) c5FS1 ("x.io/a".toList) ("v1".toList) =
        (.ok r2, c5FS1, []) ∧ r2.Hash = c5Result.Hash :=
  fetch_cache_roundtrip c5Fetcher (fun b => b) (fun _ => true) c5Net c5NetDown
    (fun _ _ => none) (fun _ _ => none) (fun _ => none) (fun _ => none)
    ⟨[], []⟩ ("x.io/a".toList) ("v1".toList) c5Result c5FS1
    [.download ("https://x.io/x.io/a/@v/v1.zip".toList)]
    (by decide) (by decide) (by decide)

/-- C10: on a cache hit (directory exists, hash sidecar readable) where
the URL and revision sidecars are unreadable, `Fetch` still succeeds, the
returned URL and Rev are empty, and the returned Hash is the hash sidecar
content with surrounding white space trimmed. -/
theorem fetch_hit_sidecar_defaults (f : Fetcher) (digest : List Nat → List Nat)
    (wOk : Str → Bool) (net : Str → Except Str Zip)
    (gl : Str → Str → Option ModuleInfo) (inet : Str → Option ModuleInfo)
    (fs : FS) (m v h0 : Str)
    (hd : dirExists fs (cachedDirPath f m v) = true)
    (hh : readFile fs (hashFilePath f m v) = some h0)
    (hu : readFile fs (urlFilePath f m v) = none)
    (hr : readFile fs (revFilePath f m v) = none) :
    fetch f digest wOk net gl inet fs m v =
      (.ok { ModulePath := m, Version := v, Dir := cachedDirPath f m v,
             Hash := trimSpace h0, URL := [], Rev := [] }, fs, []) := by
  rw [fetch_hit_result f digest wOk net gl inet fs m v h0 hd hh, hu, hr]

/-- The filesystem of the C10 witness: a cache directory and a hash
sidecar with surrounding blanks, no URL or revision sidecar. -/
def c10FS : FS :=
  { dirs := ["c".toList, "c/x.io".toList, "c/x.io/a@v1".toList],
    files := [("c/x.io/a@v1.hash".toList, " sha256-AQID ".toList)] }

/-- Witness for C10 at a concrete cache state: the fetch succeeds with
empty URL and Rev and the trimmed sidecar hash. -/
theorem fetch_hit_sidecar_defaults_witness :
    fetch ⟨[], [], "c".toList, false⟩ (fun b => b) (fun _ => true)
        (fun _ => .error "unreachable".toList) (fun _ _ => none) (fun _ => none)
        c10FS ("x.io/a".toList) ("v1".toList) =
      (.ok { ModulePath := "x.io/a".toList, Version := "v1".toList,
             Dir := "c/x.io/a@v1".toList, Hash := "sha256-AQID".toList,
             URL := [], Rev := [] }, c10FS, []) := by
  have h := fetch_hit_sidecar_defaults ⟨[], [], "c".toList, false⟩ (fun b => b)
    (fun _ => true) (fun _ => .error "unreachable".toList) (fun _ _ => none)
    (fun _ => none) c10FS ("x.io/a".toList) ("v1".toList)
    (" sha256-AQID ".toList) (by decide) (by decide) (by decide) (by decide)
  rw [h]
  decide

/-- C1 (amended): on a cache miss the orchestrator computes exactly one
download URL and attempts it once; a network error or non-success HTTP
status on that single attempt fails the whole fetch immediately with the
underlying error wrapped as `downloading module: …`, the filesystem is
untouched, and the request log contains exactly one download request —
no further candidate is ever attempted. -/
theorem fetch_single_attempt (f : Fetcher) (digest : List Nat → List Nat)
    (wOk : Str → Bool) (net : Str → Except Str Zip)
    (gl : Str → Str → Option ModuleInfo) (inet : Str → Option ModuleInfo)
    (fs : FS) (m v e : Str)
    (hmiss : dirExists fs (cachedDirPath f m v) = false ∨
             readFile fs (hashFilePath f m v) = none)
    (herr : net (getDownloadURL f gl inet m v).1 = .error e) :
    (fetch f digest wOk net gl inet fs m v).1 =
        .error ("downloading module: ".toList ++ e) ∧
      (fetch f digest wOk net gl inet fs m v).2.1 = fs ∧
      (fetch f digest wOk net gl inet fs m v).2.2.filter Req.isDL =
        [.download (getDownloadURL f gl inet m v).1] := by
  have hfm : fetch f digest wOk net gl inet fs m v =
      fetchMiss f digest wOk net gl inet fs m v := by
    unfold fetch
    simp only []
    by_cases hd : dirExists fs (cachedDirPath f m v) = true
    · rcases hmiss with hm | hm
      · rw [hd] at hm; cases hm
      · rw [if_pos hd, hm]
    · rw [if_neg hd]
  rw [hfm]
  unfold fetchMiss
  rcases hdl : getDownloadURL f gl inet m v with ⟨u, lg0⟩
  rw [hdl] at herr
  simp only [] at herr ⊢
  rw [herr]
  refine ⟨rfl, rfl, ?_⟩
  have hl := getDownloadURL_log f gl inet m v
  rw [hdl] at hl
  simp only [List.filter_append]
  have hnil : lg0.filter Req.isDL = [] := by
    rw [List.filter_eq_nil_iff]
    intro a ha
    simp [hl a ha]
  rw [hnil]
  rfl

/-- The concrete fetcher of the C1 scenario: proxy configured, nothing
private. -/
def c1Fetcher : Fetcher := ⟨"https://p.example".toList, [], "cache".toList, false⟩

/-- The archive the direct-source URL would serve in the C1 scenario. -/
def c1Zip : Zip := ⟨[1], []⟩

/-- The network of the C1 scenario: the proxy URL answers with a
non-success status, every other URL — the direct-source URL included —
succeeds. -/
def c1Net : Str → Except Str Zip := fun u =>
  if u = "https://p.example/x.io/a/@v/v1.zip".toList
  then .error "unexpected status: 404 Not Found".toList else .ok c1Zip

/-- C1 is false of the code: when the proxy download fails, the fetch
fails outright with that error after exactly one download request, even
though the direct-source URL — the next candidate in the spec's order —
would have succeeded; no second candidate is attempted. -/
theorem fetch_no_fallback_counterexample :
    (fetch c1Fetcher (fun b => b) (fun _ => true) c1Net (fun _ _ => none)
        (fun _ => none) ⟨[], []⟩ ("x.io/a".toList) ("v1".toList)).1 =
        .error ("downloading module: unexpected status: 404 Not Found".toList) ∧
      c1Net (directURL c1Fetcher (fun _ _ => none) (fun _ => none)
        ("x.io/a".toList) ("v1".toList)).1 = .ok c1Zip ∧
      (fetch c1Fetcher (fun b => b) (fun _ => true) c1Net (fun _ _ => none)
        (fun _ => none) ⟨[], []⟩ ("x.io/a".toList) ("v1".toList)).2.2 =
        [.download ("https://p.example/x.io/a/@v/v1.zip".toList)] := by
  decide

/-- Witness for the amended C1 at the concrete scenario: the single proxy
attempt fails and the fetch surfaces the wrapped error at once. -/
theorem fetch_single_attempt_witness :
    (fetch c1Fetcher (fun b => b) (fun _ => true) c1Net (fun _ _ => none)
        (fun _ => none) ⟨[], []⟩ ("x.io/a".toList) ("v1".toList)).1 =
        .error ("downloading module: ".toList ++
          "unexpected status: 404 Not Found".toList) ∧
      (fetch c1Fetcher (fun b => b) (fun _ => true) c1Net (fun _ _ => none)
        (fun _ => none) ⟨[], []⟩ ("x.io/a".toList) ("v1".toList)).2.1 = ⟨[], []⟩ ∧
      (fetch c1Fetcher (fun b => b) (fun _ => true) c1Net (fun _ _ => none)
        (fun _ => none) ⟨[], []⟩ ("x.io/a".toList) ("v1".toList)).2.2.filter
          Req.isDL =
        [.download (getDownloadURL c1Fetcher (fun _ _ => none) (fun _ => none)
          ("x.io/a".toList) ("v1".toList)).1] :=
  fetch_single_attempt c1Fetcher (fun b => b) (fun _ => true) c1Net
    (fun _ _ => none) (fun _ => none) ⟨[], []⟩ ("x.io/a".toList) ("v1".toList)
    ("unexpected status: 404 Not Found".toList) (Or.inl (by decide)) (by decide)

/-- C2: for every `(path, version)` — if the module is private or no proxy
is configured, the proxy strategy is skipped and the direct-source URL is
used; otherwise the download URL is the proxy base, `/`, the escaped path,
`/@v/`, the URL-path-escaped version, and the `.zip` archive suffix.  The
escaping replaces every upper-case ASCII letter by the sentinel `!`
followed by its lower-case form and leaves all other runes unchanged. -/
theorem getDownloadURL_proxy_routing (f : Fetcher)
    (gl : Str → Str → Option ModuleInfo) (inet : Str → Option ModuleInfo)
    (m v : Str) :
    (isPrivate f m = true ∨ f.Proxy = [] →
      getDownloadURL f gl inet m v = directURL f gl inet m v) ∧
    (isPrivate f m = false → f.Proxy ≠ [] →
      getDownloadURL f gl inet m v =
        (f.Proxy ++ ['/'] ++ escapePath m ++ "/@v/".toList ++
          escapeVersion v ++ ".zip".toList, [])) ∧
    escapePath m = (m.map (fun r =>
      if 'A' ≤ r && r ≤ 'Z' then ['!', Char.ofNat (r.toNat + 32)]
      else [r])).flatten := by
  refine ⟨?_, ?_, ?_⟩
  · intro h
    unfold getDownloadURL
    rcases h with hp | hp
    · rw [if_pos hp]
    · by_cases hpriv : isPrivate f m = true
      · rw [if_pos hpriv]
      · rw [if_neg hpriv, if_neg (by simp [hp])]
  · intro h1 h2
    unfold getDownloadURL
    rw [if_neg (by simp [h1]), if_pos h2]
  · simp [escapePath, List.flatMap_def]

/-- Witness for C2 at the repository's own test vector: a public module
with the shared proxy configured resolves to the proxy URL. -/
theorem getDownloadURL_proxy_routing_witness :
    getDownloadURL ⟨"https://proxy.golang.org".toList, [], [], false⟩
        (fun _ _ => none) (fun _ => none)
        ("golang.org/x/mod".toList) ("v0.32.0".toList) =
      ("https://proxy.golang.org/golang.org/x/mod/@v/v0.32.0.zip".toList, []) := by
  have h := (getDownloadURL_proxy_routing
    ⟨"https://proxy.golang.org".toList, [], [], false⟩
    (fun _ _ => none) (fun _ => none)
    ("golang.org/x/mod".toList) ("v0.32.0".toList)).2.1 (by decide) (by decide)
  rw [h]
  decide

/-- The provenance record of the C3 scenario: a tag ref together with a
full 40-character commit hash. -/
def c3Origin : Origin :=
  { VCS := "git".toList, URL := "https://github.com/example/repo".toList,
    Ref := "refs/tags/v1.0.0".toList,
    Hash := "aaaaaaaaaaaaaaaaaaaaaaaaaaaaaaaaaaaaaaaa".toList, Subdir := [] }

/-- C3 is false of the code: even when provenance metadata supplies a full
40-character commit hash, a tag ref takes precedence — the archive URL is
built from the tag, and no fetch-by-commit URL is placed ahead of it. -/
theorem buildGitHubArchiveURL_tag_over_hash_counterexample :
    c3Origin.Hash.length = 40 ∧
      buildGitHubArchiveURL c3Origin =
        "https://github.com/example/repo/archive/refs/tags/v1.0.0.zip".toList ∧
      buildGitHubArchiveURL c3Origin ≠
        ("https://github.com/example/repo/archive/".toList ++ c3Origin.Hash ++
          ".zip".toList) := by
  decide

/-- C3 (amended): the commit hash extracted from the snapshot version
`v0.0.0-20231201120000-abcdef123456` is `abcdef123456`; and the archive
URL uses the commit hash exactly when the provenance ref is neither a tag
nor a branch ref and the hash is non-empty — a tag or branch ref always
takes precedence over the commit hash, whatever the hash's length.  The
four clauses cover every origin exhaustively: tag ref, branch ref (no
tag), commit hash alone, and nothing usable (empty result), so the
commit-hash URL appears in exactly the third case. -/
theorem archiveURL_hash_only_without_ref :
    (getModuleInfoManual ("github.com/example/repo".toList)
        ("v0.0.0-20231201120000-abcdef123456".toList)).Origin.map Origin.Hash =
      some ("abcdef123456".toList) ∧
    (∀ o : Origin, ∀ tag, cutPre o.Ref ("refs/tags/".toList) = some tag →
      buildGitHubArchiveURL o =
        "https://github.com/".toList ++
          trimSuf (trimPre o.URL ("https://github.com/".toList)) (".git".toList) ++
          "/archive/refs/tags/".toList ++ pathEscape tag ++ ".zip".toList) ∧
    (∀ o : Origin, ∀ branch, cutPre o.Ref ("refs/tags/".toList) = none →
      cutPre o.Ref ("refs/heads/".toList) = some branch →
      buildGitHubArchiveURL o =
        "https://github.com/".toList ++
          trimSuf (trimPre o.URL ("https://github.com/".toList)) (".git".toList) ++
          "/archive/refs/heads/".toList ++ pathEscape branch ++ ".zip".toList) ∧
    (∀ o : Origin, cutPre o.Ref ("refs/tags/".toList) = none →
      cutPre o.Ref ("refs/heads/".toList) = none → o.Hash ≠ [] →
      buildGitHubArchiveURL o =
        "https://github.com/".toList ++
          trimSuf (trimPre o.URL ("https://github.com/".toList)) (".git".toList) ++
          "/archive/".toList ++ o.Hash ++ ".zip".toList) ∧
    (∀ o : Origin, cutPre o.Ref ("refs/tags/".toList) = none →
      cutPre o.Ref ("refs/heads/".toList) = none → o.Hash = [] →
      buildGitHubArchiveURL o = []) := by
  refine ⟨by decide, ?_, ?_, ?_, ?_⟩
  · intro o tag htag
    unfold buildGitHubArchiveURL
    rw [htag]
  · intro o branch htag hbranch
    unfold buildGitHubArchiveURL
    rw [htag]
    simp only []
    rw [hbranch]
  · intro o htag hbranch hhash
    unfold buildGitHubArchiveURL
    rw [htag, hbranch]
    simp only []
    rw [if_pos hhash]
  · intro o htag hbranch hhash
    unfold buildGitHubArchiveURL
    rw [htag, hbranch]
    simp only []
    rw [if_neg (by simp [hhash])]

/-- The provenance record of the C3 witness with only a commit hash. -/
def c3HashOrigin : Origin :=
  { VCS := "git".toList, URL := "https://github.com/example/repo".toList,
    Ref := [], Hash := "abcdef123456".toList, Subdir := [] }

/-- The provenance record of the C3 witness with a branch ref alongside a
full 40-character commit hash. -/
def c3BranchOrigin : Origin :=
  { VCS := "git".toList, URL := "https://github.com/example/repo".toList,
    Ref := "refs/heads/main".toList,
    Hash := "aaaaaaaaaaaaaaaaaaaaaaaaaaaaaaaaaaaaaaaa".toList, Subdir := [] }

/-- The provenance record of the C3 witness with no ref and no hash. -/
def c3EmptyOrigin : Origin :=
  { VCS := "git".toList, URL := "https://github.com/example/repo".toList,
    Ref := [], Hash := [], Subdir := [] }

/-- Witness for the amended C3: the concrete extraction, a tag-ref origin
resolving to the tag URL, a branch-ref origin with a full 40-character
hash resolving to the branch URL (branch precedence), a hash-only origin
resolving to the commit-hash URL, and a bare origin resolving to the
empty string. -/
theorem archiveURL_hash_only_without_ref_witness :
    (getModuleInfoManual ("github.com/example/repo".toList)
        ("v0.0.0-20231201120000-abcdef123456".toList)).Origin.map Origin.Hash =
      some ("abcdef123456".toList) ∧
    buildGitHubArchiveURL c3Origin =
      "https://github.com/example/repo/archive/refs/tags/v1.0.0.zip".toList ∧
    buildGitHubArchiveURL c3BranchOrigin =
      "https://github.com/example/repo/archive/refs/heads/main.zip".toList ∧
    buildGitHubArchiveURL c3HashOrigin =
      "https://github.com/example/repo/archive/abcdef123456.zip".toList ∧
    buildGitHubArchiveURL c3EmptyOrigin = [] := by
  obtain ⟨h1, h2, h3, h4, h5⟩ := archiveURL_hash_only_without_ref
  exact ⟨h1, (h2 c3Origin ("v1.0.0".toList) (by decide)).trans (by decide),
    (h3 c3BranchOrigin ("main".toList) (by decide) (by decide)).trans (by decide),
    (h4 c3HashOrigin (by decide) (by decide) (by decide)).trans (by decide),
    h5 c3EmptyOrigin (by decide) (by decide) (by decide)⟩

/-- C4: the code violates the claim's header clause — evaluated on a
concrete tree (an empty directory), the stream of `writeNAR` begins with
the thirteen raw marker bytes, whereas the claim requires the marker to be
written like every other field: an 8-byte length count (little-endian 13)
followed by the data and zero padding.  The length-prefixed marker field
is not a prefix of the stream the code produces. -/
theorem narStream_marker_not_length_prefixed :
    (narStream (.directory [])).take 13 = strBytes ("nix-archive-1".toList) ∧
      (narStringField ("nix-archive-1".toList)).take 8 =
        [13, 0, 0, 0, 0, 0, 0, 0] ∧
      (narStringField ("nix-archive-1".toList)).isPrefixOf
        (narStream (.directory [])) = false := by
  decide

/-- Dropping an appended suffix recovers the front part. -/
theorem cutSuf_append (pre sfx : Str) : cutSuf (pre ++ sfx) sfx = some pre := by
  unfold cutSuf goEndsWith
  rw [if_pos]
  · rw [List.length_append, Nat.add_sub_cancel]
    rw [List.take_left' rfl]
  · simp [List.isSuffixOf_iff_suffix]

/-- A string not ending in a suffix is not cut by it. -/
theorem cutSuf_eq_none (s sfx : Str) (h : goEndsWith s sfx = false) :
    cutSuf s sfx = none := by
  unfold cutSuf
  rw [if_neg]
  simp [h]

/-- A string ending in `/*` also ends in `*`. -/
theorem goEndsWith_star_of_slashStar (pat : Str)
    (h : goEndsWith pat ("/*".toList) = true) : goEndsWith pat ['*'] = true := by
  unfold goEndsWith at h ⊢
  rw [List.isSuffixOf_iff_suffix] at h ⊢
  exact List.IsSuffix.trans (List.suffix_append ['/'] ['*']) h

/-- C7: a pattern ending in `/*` matches exactly when the path equals the
prefix or starts with the prefix followed by `/`; a pattern ending in a
bare `*` matches exactly when the path starts with the prefix; any other
pattern matches exactly when the path starts with the literal pattern;
the privacy decision over the comma-separated list is the OR of the
per-pattern results (each pattern trimmed, empty ones never matching); an
empty pattern list is never private; and `host.example/org/*` matches the
path `host.example/org`. -/
theorem matchPattern_isPrivate_spec :
    (∀ pre path : Str, matchPattern (pre ++ "/*".toList) path =
      (path == pre || goStartsWith path (pre ++ ['/']))) ∧
    (∀ pre path : Str, goEndsWith (pre ++ ['*']) ("/*".toList) = false →
      matchPattern (pre ++ ['*']) path = goStartsWith path pre) ∧
    (∀ pat path : Str, goEndsWith pat ['*'] = false →
      matchPattern pat path = goStartsWith path pat) ∧
    (∀ (f : Fetcher) (path : Str), isPrivate f path = true ↔
      ∃ p ∈ splitAll f.Private ',', trimSpace p ≠ [] ∧
        matchPattern (trimSpace p) path = true) ∧
    (∀ (f : Fetcher) (path : Str), f.Private = [] → isPrivate f path = false) ∧
    matchPattern ("host.example/org/*".toList) ("host.example/org".toList) = true := by
  refine ⟨?_, ?_, ?_, ?_, ?_, by decide⟩
  · intro pre path
    unfold matchPattern
    rw [show ("/*".toList : Str) = ['/', '*'] from rfl, cutSuf_append pre ['/', '*']]
    simp only []
    exact Bool.or_comm _ _
  · intro pre path h
    have h' : goEndsWith (pre ++ ['*']) ['/', '*'] = false := h
    unfold matchPattern
    rw [cutSuf_eq_none _ _ h', cutSuf_append pre ['*']]
  · intro pat path h
    have h2 : goEndsWith pat ['/', '*'] = false := by
      cases hgw : goEndsWith pat ['/', '*'] with
      | false => rfl
      | true =>
        rw [goEndsWith_star_of_slashStar pat hgw] at h
        cases h
    unfold matchPattern
    rw [cutSuf_eq_none _ _ h2, cutSuf_eq_none _ _ h]
  · intro f path
    unfold isPrivate
    by_cases hp : f.Private = []
    · rw [if_pos hp]
      constructor
      · intro h; cases h
      · rintro ⟨p, hmem, hne, -⟩
        rw [hp] at hmem
        simp only [splitAll, List.mem_singleton] at hmem
        subst hmem
        exact absurd rfl hne
    · rw [if_neg hp, List.any_eq_true]
      constructor
      · rintro ⟨p, hmem, hpred⟩
        simp only [] at hpred
        by_cases hq : trimSpace p = []
        · rw [if_pos hq] at hpred; cases hpred
        · rw [if_neg hq] at hpred
          exact ⟨p, hmem, hq, hpred⟩
      · rintro ⟨p, hmem, hne, hmatch⟩
        refine ⟨p, hmem, ?_⟩
        simp only []
        rw [if_neg hne]
        exact hmatch
  · intro f path h
    unfold isPrivate
    rw [if_pos h]

/-- Witness for C7 at the repository's own test vectors: the boundary
wildcard case, a bare-star pattern, a literal prefix pattern, a multi
pattern privacy decision, and the empty list. -/
theorem matchPattern_isPrivate_spec_witness :
    matchPattern ("github.com/myorg/*".toList) ("github.com/myorg".toList) =
        (("github.com/myorg".toList : Str) == ("github.com/myorg".toList : Str) ||
          goStartsWith ("github.com/myorg".toList) ("github.com/myorg/".toList)) ∧
      matchPattern ("github.com/myorg*".toList) ("github.com/myorgtest".toList) =
        goStartsWith ("github.com/myorgtest".toList) ("github.com/myorg".toList) ∧
      matchPattern ("github.com/myorg".toList) ("github.com/myorg/repo".toList) =
        goStartsWith ("github.com/myorg/repo".toList) ("github.com/myorg".toList) ∧
      isPrivate ⟨[], "github.com/myorg/*,gitlab.com/internal/*".toList, [], false⟩
        ("gitlab.com/internal/project".toList) = true ∧
      isPrivate ⟨[], [], [], false⟩ ("github.com/myorg/private".toList) = false := by
  obtain ⟨h1, h2, h3, h4, h5, -⟩ := matchPattern_isPrivate_spec
  refine ⟨h1 ("github.com/myorg".toList) ("github.com/myorg".toList), ?_, ?_, ?_, ?_⟩
  · exact h2 ("github.com/myorg".toList) ("github.com/myorgtest".toList) (by decide)
  · exact h3 ("github.com/myorg".toList) ("github.com/myorg/repo".toList) (by decide)
  · exact (h4 ⟨[], "github.com/myorg/*,gitlab.com/internal/*".toList, [], false⟩
      ("gitlab.com/internal/project".toList)).mpr
      ⟨"gitlab.com/internal/*".toList, by decide, by decide, by decide⟩
  · exact h5 ⟨[], [], [], false⟩ ("github.com/myorg/private".toList) rfl

/-- C6: for every version string of a GitHub module path, the manual
provenance construction classifies a `v0.0.0-` prefixed version as a
snapshot — its ref stays empty and its commit hash is exactly the
substring after the last hyphen — and classifies every other version
(the empty string included) as tagged, with ref `refs/tags/` followed by
the version and an empty hash.  The construction is a total function:
classification never fails. -/
theorem getModuleInfoManual_classification (m : Str)
    (hm : goStartsWith m ("github.com/".toList) = true)
    (hp : 3 ≤ (splitN '/' 4 m).length) (ver : Str) :
    ∃ o : Origin, (getModuleInfoManual m ver).Origin = some o ∧
      (goStartsWith ver ("v0.0.0-".toList) = true →
        o.Ref = [] ∧ ∃ i, lastIdx ver '-' = some i ∧ o.Hash = ver.drop (i + 1)) ∧
      (goStartsWith ver ("v0.0.0-".toList) = false →
        o.Ref = "refs/tags/".toList ++ ver ∧ o.Hash = []) := by
  unfold getModuleInfoManual
  rw [if_pos hm, if_pos hp]
  by_cases hv : goStartsWith ver ("v0.0.0-".toList) = true
  · rw [if_pos hv]
    have hmem : '-' ∈ ver := by
      have hpre : ("v0.0.0-".toList : Str) <+: ver := by
        have := hv
        unfold goStartsWith at this
        exact List.isPrefixOf_iff_prefix.mp this
      obtain ⟨t, ht⟩ := hpre
      rw [← ht]
      exact List.mem_append.mpr (Or.inl (by decide))
    have hsome := lastIdx_isSome_of_mem ver '-' hmem
    rcases hidx : lastIdx ver '-' with _ | i
    · rw [hidx] at hsome; cases hsome
    · simp only []
      by_cases hlen : i + 1 < ver.length
      · rw [if_pos hlen]
        refine ⟨_, rfl, fun _ => ⟨rfl, i, rfl, rfl⟩, fun hc => ?_⟩
        rw [hv] at hc
        cases hc
      · rw [if_neg hlen]
        refine ⟨_, rfl, fun _ => ⟨rfl, i, rfl, ?_⟩, fun hc => ?_⟩
        · exact (List.drop_eq_nil_of_le (Nat.le_of_not_lt hlen)).symm
        · rw [hv] at hc
          cases hc
  · rw [if_neg hv]
    refine ⟨_, rfl, fun hc => ?_, fun _ => ⟨rfl, rfl⟩⟩
    exact absurd hc hv

/-- Witness for C6 at the concrete pseudo-version of the spec's scenario
B on a GitHub path. -/
theorem getModuleInfoManual_classification_witness :
    ∃ o : Origin,
      (getModuleInfoManual ("github.com/example/repo".toList)
        ("v0.0.0-20231201120000-abcdef123456".toList)).Origin = some o ∧
      (goStartsWith ("v0.0.0-20231201120000-abcdef123456".toList)
          ("v0.0.0-".toList) = true →
        o.Ref = [] ∧ ∃ i, lastIdx ("v0.0.0-20231201120000-abcdef123456".toList)
          '-' = some i ∧
          o.Hash = ("v0.0.0-20231201120000-abcdef123456".toList).drop (i + 1)) ∧
      (goStartsWith ("v0.0.0-20231201120000-abcdef123456".toList)
          ("v0.0.0-".toList) = false →
        o.Ref = "refs/tags/".toList ++
          ("v0.0.0-20231201120000-abcdef123456".toList) ∧ o.Hash = []) :=
  getModuleInfoManual_classification ("github.com/example/repo".toList)
    (by decide) (by decide) ("v0.0.0-20231201120000-abcdef123456".toList)

/-- C8: the code violates the claim — on a credential file whose machine
entry is still open when the macro-definition line is reached, parsing
stops but returns without that entry: the credential set is empty and the
host lookup finds nothing, even though the same file without the `macdef`
line yields the entry.  So not all credential entries defined before the
marker are present. -/
theorem parseNetrc_macdef_drops_open_entry :
    (parseNetrcLines ["machine example.com login u password p".toList,
        "macdef init".toList]).Entries = [] ∧
      findEntry (parseNetrcLines ["machine example.com login u password p".toList,
        "macdef init".toList]) ("example.com".toList) = none ∧
      (parseNetrcLines ["machine example.com login u password p".toList]).Entries =
        [{ Machine := "example.com".toList, Login := "u".toList,
           Password := "p".toList }] := by
  decide

/-- C9: lookup returns an entry whose machine equals the host whenever one
exists; otherwise a default (empty-machine) entry whenever one exists;
otherwise no credentials — which is not an error.  A credential set with
only a default entry returns that entry for every host query. -/
theorem findEntry_spec :
    (∀ (n : Netrc) (h : Str), (∃ e ∈ n.Entries, e.Machine = h) →
      ∃ e, findEntry n h = some e ∧ e.Machine = h) ∧
    (∀ (n : Netrc) (h : Str), (∀ e ∈ n.Entries, e.Machine ≠ h) →
      (∃ e ∈ n.Entries, e.Machine = []) →
      ∃ e, findEntry n h = some e ∧ e.Machine = []) ∧
    (∀ (n : Netrc) (h : Str), (∀ e ∈ n.Entries, e.Machine ≠ h) →
      (∀ e ∈ n.Entries, e.Machine ≠ []) → findEntry n h = none) ∧
    (∀ u p h : Str, findEntry ⟨[⟨[], u, p⟩]⟩ h = some ⟨[], u, p⟩) := by
  have hnone : ∀ (n : Netrc) (h : Str), (∀ e ∈ n.Entries, e.Machine ≠ h) →
      n.Entries.find? (fun e => e.Machine == h) = none := by
    intro n h hall
    rw [List.find?_eq_none]
    intro e he
    simpa using hall e he
  refine ⟨?_, ?_, ?_, ?_⟩
  · intro n h hex
    unfold findEntry
    rcases hf : n.Entries.find? (fun e => e.Machine == h) with _ | e
    · exfalso
      obtain ⟨e0, he0, hm0⟩ := hex
      rw [List.find?_eq_none] at hf
      exact hf e0 he0 (by simpa using hm0)
    · rw [hf]
      exact ⟨e, rfl, by simpa using List.find?_some hf⟩
  · intro n h hall hex
    unfold findEntry
    rw [hnone n h hall]
    rcases hf : n.Entries.find? (fun e => e.Machine == ([] : Str)) with _ | e
    · exfalso
      obtain ⟨e0, he0, hm0⟩ := hex
      rw [List.find?_eq_none] at hf
      exact hf e0 he0 (by simpa using hm0)
    · rw [hf]
      exact ⟨e, rfl, by simpa using List.find?_some hf⟩
  · intro n h hall hdef
    unfold findEntry
    rw [hnone n h hall]
    rw [List.find?_eq_none]
    intro e he
    simpa using hdef e he
  · intro u p h
    unfold findEntry
    cases hbeq : (([] : Str) == h) <;> simp [List.find?, hbeq]

/-- The two-entry credential set of the C9 witness. -/
def c9Netrc : Netrc :=
  ⟨[⟨"a.com".toList, "u1".toList, "p1".toList⟩,
    ⟨[], "u2".toList, "p2".toList⟩]⟩

/-- Witness for C9 at concrete credential sets: an exact match, a default
fallback, a no-credential result, and the default-only scenario. -/
theorem findEntry_spec_witness :
    (∃ e, findEntry c9Netrc ("a.com".toList) = some e ∧
      e.Machine = "a.com".toList) ∧
    (∃ e, findEntry c9Netrc ("b.com".toList) = some e ∧ e.Machine = []) ∧
    findEntry ⟨[⟨"a.com".toList, "u1".toList, "p1".toList⟩]⟩ ("b.com".toList) =
      none ∧
    findEntry ⟨[⟨[], "u".toList, "p".toList⟩]⟩ ("any.host".toList) =
      some ⟨[], "u".toList, "p".toList⟩ := by
  obtain ⟨h1, h2, h3, h4⟩ := findEntry_spec
  exact ⟨h1 c9Netrc ("a.com".toList) (by decide),
    h2 c9Netrc ("b.com".toList) (by decide) (by decide),
    h3 ⟨[⟨"a.com".toList, "u1".toList, "p1".toList⟩]⟩ ("b.com".toList)
      (by decide) (by decide),
    h4 ("u".toList) ("p".toList) ("any.host".toList)⟩
